import Mathlib

/-!
Shallow embedding of the git-automation scripts of this repository
(`scripts/branch_manager.py`, `scripts/git_automation.py`,
`scripts/repo_clone.py`) and proofs about them.

Strings are modelled as `List Char` (Python strings are sequences of Unicode
scalar values, as is `List Char` here).  Pure string functions are translated
directly from the Python source.  The stateful Git operations are modelled as
functions over explicit "world" records that carry the outcome of each
underlying GitPython call (the version-control tool is an external
collaborator); each operation returns its Python return value together with
the observable effects it performed (network pushes, directory removals,
history-record appends), so that ordering and counting claims can be stated.
-/

namespace GitRepoAutomation

/-! ## Python character primitives

Python `str` methods (`isspace`, `isalnum`, `upper`) follow the Unicode
character database.  They are embedded exactly on the ASCII range
(where they agree with the simple ASCII rules below), and additionally on the
individual non-ASCII codepoints that concrete inputs in this file reach:
U+00E9 é and U+00C9 É (Unicode letters; `'é'.upper() == 'É'`),
U+01F0 ǰ (a Unicode letter whose full uppercase mapping per
SpecialCasing.txt is the two-character string U+004A 'J' followed by
U+030C COMBINING CARON), and U+030C itself (a combining mark, which is not
alphanumeric in Python).  All other codepoints fall through to a default
branch that no theorem below relies on: every universally quantified theorem
about these functions restricts its inputs to ASCII, and every concrete
evaluation uses only the codepoints listed above. -/

/-- Python `str.isspace`/`str.strip` whitespace test, restricted to the ASCII
range: codepoints 9–13 (TAB, LF, VT, FF, CR), 28–31 (the separator control
characters, which Python counts as whitespace) and 32 (space). -/
def pyIsSpace (c : Char) : Bool :=
  (9 ≤ c.toNat && c.toNat ≤ 13) || (28 ≤ c.toNat && c.toNat ≤ 31) || c.toNat == 32

/-- Python `str.isalnum` for a single character: on ASCII exactly the letters
`A`–`Z`, `a`–`z` and digits `0`–`9`; beyond ASCII, modelled on the three
codepoints used by concrete inputs in this file (é, É and ǰ are Unicode
letters; anything else, in particular U+030C COMBINING CARON, maps to the
`false` default here and no theorem evaluates the default branch except at
U+030C, where `false` is Python's answer). -/
def pyIsAlnum (c : Char) : Bool :=
  if c.toNat < 128 then
    (65 ≤ c.toNat && c.toNat ≤ 90) || (97 ≤ c.toNat && c.toNat ≤ 122) ||
      (48 ≤ c.toNat && c.toNat ≤ 57)
  else
    c.toNat == 0xE9 || c.toNat == 0xC9 || c.toNat == 0x1F0

/-- ASCII single-character uppercase step: `a`–`z` map 32 codepoints down,
everything else is unchanged. -/
def pyToUpperChar (c : Char) : Char :=
  if 97 ≤ c.toNat && c.toNat ≤ 122 then Char.ofNat (c.toNat - 32) else c

/-- Python `str.upper` on one character, returning the full (possibly
multi-character) uppercase mapping: the plain ASCII rule below 128, and the
Unicode mappings for the two non-ASCII codepoints concrete inputs reach
(é ↦ É, and ǰ ↦ "J" + U+030C per Unicode SpecialCasing); other codepoints
default to themselves and are not relied on by any theorem. -/
def pyUpper (c : Char) : List Char :=
  if c.toNat < 128 then [pyToUpperChar c]
  else if c.toNat == 0xE9 then [Char.ofNat 0xC9]
  else if c.toNat == 0x1F0 then [Char.ofNat 0x4A, Char.ofNat 0x30C]
  else [c]

/-- Python `str.strip()`: drop whitespace from both ends. -/
def pyStrip (s : List Char) : List Char :=
  ((s.dropWhile pyIsSpace).reverse.dropWhile pyIsSpace).reverse

/-! ## BranchManager (`scripts/branch_manager.py`) -/

/-- `BranchManager._normalize_name`:
`None` yields the empty string; otherwise
`value.strip().replace(" ", "_")`, then keep only characters with
`ch.isalnum() or ch == "_"`, then `.upper()` (character-wise full uppercase
mapping, concatenated). -/
def normalize_name (value : Option (List Char)) : List Char :=
  match value with
  | none => []
  | some v =>
    let cleaned := (pyStrip v).map fun c => if c = ' ' then '_' else c
    let kept := cleaned.filter fun c => pyIsAlnum c || c = '_'
    (kept.map pyUpper).flatten

/-- Python's `a or b` for strings where `a` may be `None`: the empty string is
falsy, so both `None` and `""` fall through to `b`. -/
def pyOrStr (a : Option (List Char)) (b : List Char) : List Char :=
  match a with
  | none => b
  | some s => if s = [] then b else s

/-- The configuration-derived fields of a `BranchManager` instance:
`self.team_name` and `self.leader_name` as set by `__init__`. -/
structure BranchManagerState where
  team_name : List Char
  leader_name : List Char

/-- `BranchManager.BRANCH_SUFFIX`. -/
def BRANCH_SUFFIX : List Char := "AI_Fix".data

/-- `os.getenv(var, default)`: the environment value when the variable is set
(even when set to the empty string), else the default literal. -/
def getenvD (v : Option (List Char)) (d : List Char) : List Char := v.getD d

/-- `BranchManager.__init__`'s name configuration:
`self.team_name = team_name or DEFAULT_TEAM_NAME` with
`DEFAULT_TEAM_NAME = os.getenv("TEAM_NAME", "RAG_RAIDERS")`, and likewise for
the leader name with default `"DEO_PRAKASH"`. -/
def mkBranchManagerState (ctorTeam ctorLeader envTeam envLeader : Option (List Char)) :
    BranchManagerState :=
  { team_name := pyOrStr ctorTeam (getenvD envTeam "RAG_RAIDERS".data)
    leader_name := pyOrStr ctorLeader (getenvD envLeader "DEO_PRAKASH".data) }

/-- `BranchManager.generate_branch_name`:
`team = self._normalize_name(team_name or self.team_name)`,
`leader = self._normalize_name(leader_name or self.leader_name)`,
result `f"{team}_{leader}_{self.BRANCH_SUFFIX}"`. -/
def generate_branch_name (st : BranchManagerState)
    (team leader : Option (List Char)) : List Char :=
  let t := normalize_name (some (pyOrStr team st.team_name))
  let l := normalize_name (some (pyOrStr leader st.leader_name))
  t ++ '_' :: (l ++ '_' :: BRANCH_SUFFIX)

/-! ## History files (`_save_operation` / `_save_to_file`)

`GitAutomation._save_operation` and `BranchManager._save_to_file` are the same
read–append–write routine: read the file if it exists (a missing file or a
file whose stripped content is empty is treated as the empty array, any other
content is passed to `json.loads`), append the new entry, and write the array
back with `json.dumps`; any exception (in particular a `json.loads` parse
error on malformed content) is caught and logged, so the routine never raises
— but in that case nothing is written and the file is left as it was.  A
history file is modelled by what that routine can observe of it: absent,
blank (whitespace-only text), a well-formed JSON array of entries (JSON
arrays written by `json.dumps` round-trip through `json.loads`), or
malformed text that `json.loads` rejects. -/

inductive HistFile (α : Type) where
  | absent : HistFile α
  | blank : HistFile α
  | jsonArray : List α → HistFile α
  | malformed : HistFile α
deriving DecidableEq

/-- One `_save_operation(entry)` call, as a total function on the modelled
file state (the routine catches every exception, so it is total). -/
def save_operation {α : Type} (f : HistFile α) (e : α) : HistFile α :=
  match f with
  | .absent => .jsonArray [e]
  | .blank => .jsonArray [e]
  | .jsonArray l => .jsonArray (l ++ [e])
  | .malformed => .malformed

/-- Sequential `_save_operation` calls, one per entry, in order. -/
def save_operations {α : Type} (f : HistFile α) (es : List α) : HistFile α :=
  es.foldl save_operation f

/-! ## GitAutomation (`scripts/git_automation.py`) -/

/-- Observable effects of `GitAutomation.push`: contacting the remote
(`self.repo.remotes[remote].push(...)`), and one history-record append (the
in-memory `self.automation_history.append` plus the immediately following
`self._save_operation` file append, which the source always performs
together). -/
inductive PushEffect where
  | netPush : PushEffect
  | histAppend : PushEffect
deriving DecidableEq

/-- World for `GitAutomation.push`: the repository's active branch
(`self.repo.active_branch.name`) and whether the underlying remote push call
would succeed (reachable remote, accepted ref) or raise a `GitCommandError`. -/
structure PushWorld where
  active_branch : List Char
  remote_push_ok : Bool

/-- `GitAutomation.push(remote, branch, force)`: resolve `branch` to the
active branch when `None`; if the resolved branch is `"main"` or `"master"`,
log and return `False` (no remote contact, no record); otherwise attempt the
remote push (with or without `force=True` — both are the same single network
call here), append one history record on success and return `True`, or catch
the raised error and return `False` (the record append in the source sits
after the push call inside the `try`, so a failed push appends nothing).
Every exception is caught, so the function is total and returns a `Bool`. -/
def push (w : PushWorld) (branch : Option (List Char)) (force : Bool) :
    Bool × List PushEffect :=
  let b := branch.getD w.active_branch
  if b = "main".data ∨ b = "master".data then (false, [])
  else if w.remote_push_ok then (true, [.netPush, .histAppend])
  else (false, [.netPush])

/-- World for `GitAutomation.commit`: whether `self.repo.is_dirty()` reports
staged/modified changes, whether the underlying `self.repo.index.commit`
call succeeds (raising means no commit object is created), and the 40-hex
`hexsha` of the commit it would create. -/
structure CommitWorld where
  is_dirty : Bool
  git_commit_ok : Bool
  commit_hexsha : List Char

/-- Result of `GitAutomation.commit`: the Python return value (`None` or the
short hash `commit.hexsha[:7]`), the message actually handed to
`index.commit` (`none` when no commit was created), and the number of
history-record appends performed. -/
structure CommitOut where
  ret : Option (List Char)
  committed : Option (List Char)
  appends : Nat
deriving DecidableEq

/-- The marker the source tests with `message.startswith("[AI-AGENT]")`. -/
def AI_TAG : List Char := "[AI-AGENT]".data

/-- The string the source prepends: `f"[AI-AGENT] {message}"`. -/
def AI_TAG_SP : List Char := "[AI-AGENT] ".data

/-- `GitAutomation.commit(message, ...)`: return `None` when
`self.repo.is_dirty()` is false (nothing to commit, no commit created);
otherwise prepend `"[AI-AGENT] "` unless the message already starts with
`"[AI-AGENT]"` (no trailing space in the test), commit, and on success
append one history record and return the 7-character short hash; a raised
exception is caught and `None` returned with nothing appended. -/
def commit (w : CommitWorld) (message : List Char) : CommitOut :=
  if !w.is_dirty then ⟨none, none, 0⟩
  else
    let msg := if AI_TAG.isPrefixOf message then message else AI_TAG_SP ++ message
    if w.git_commit_ok then ⟨some (w.commit_hexsha.take 7), some msg, 1⟩
    else ⟨none, none, 0⟩

/-! ## BranchManager.create_branch -/

/-- World for `BranchManager.create_branch`: whether `self.repo` was
initialized, and whether the underlying Git calls in the `try` block
(checkout of the base branch, optional pull, branch lookup/creation/checkout)
all succeed; any of them raising lands in the `except` arms, which return
`False` without recording anything. -/
structure CreateBranchWorld where
  repo_initialized : Bool
  git_ops_ok : Bool

/-- Result of `BranchManager.create_branch`: the returned `bool`, the number
of appends to the in-memory `self.branch_history` list, and the number of
appends to the branch-history file. -/
structure CreateBranchOut where
  ok : Bool
  memAppends : Nat
  fileAppends : Nat
deriving DecidableEq

/-- `BranchManager.create_branch(branch_name, base_branch, checkout)`:
returns `False` with no record when no repository is initialized or when any
underlying Git call raises; on success appends one record to the in-memory
`self.branch_history` and returns `True`.  No path of this method calls
`_save_to_file`, so the branch-history file is never written here. -/
def create_branch (w : CreateBranchWorld) (branch_name base_branch : List Char)
    (checkout : Bool) : CreateBranchOut :=
  if !w.repo_initialized then ⟨false, 0, 0⟩
  else if w.git_ops_ok then ⟨true, 1, 0⟩
  else ⟨false, 0, 0⟩

/-! ## Automated commit/push workflow (`GitAutomation.automated_commit_push`) -/

/-- The four sequential phases of `automated_commit_push`: the
`ensure_ai_fix_branch` call (step 0 in the source's comments), `add_files`,
`commit`, and `push`. -/
inductive FlowStep where
  | ensureBranch : FlowStep
  | addFiles : FlowStep
  | commitChanges : FlowStep
  | pushChanges : FlowStep
deriving DecidableEq

/-- World for the workflow: the outcome of each phase if reached —
`ensure_ai_fix_branch` raising or not, `add_files`' boolean, `commit`'s
return value (`None` or a short hash), and `push`'s boolean. -/
structure FlowWorld where
  ensure_ok : Bool
  add_ok : Bool
  commit_ret : Option (List Char)
  push_ok : Bool

/-- The `results` dict of `automated_commit_push`: keys `"add"`, `"commit"`,
`"push"` (there is no key for the ensure-branch step), initialized to
`False` / `None` / `False`. -/
structure FlowResults where
  add : Bool
  commit : Option (List Char)
  push : Bool
deriving DecidableEq

/-- `GitAutomation.automated_commit_push(message, add_all, remote)`: run
ensure-branch, add, commit, push in that order; each phase runs only if every
earlier phase succeeded, and the function returns early at the first failure
(push is last, so its failure only leaves `results["push"]` false).  Returns
the `results` dict together with the list of phases actually executed. -/
def automated_commit_push (w : FlowWorld) : FlowResults × List FlowStep :=
  if !w.ensure_ok then (⟨false, none, false⟩, [.ensureBranch])
  else if !w.add_ok then (⟨false, none, false⟩, [.ensureBranch, .addFiles])
  else
    match w.commit_ret with
    | none => (⟨true, none, false⟩, [.ensureBranch, .addFiles, .commitChanges])
    | some h =>
      if w.push_ok then
        (⟨true, some h, true⟩, [.ensureBranch, .addFiles, .commitChanges, .pushChanges])
      else
        (⟨true, some h, false⟩, [.ensureBranch, .addFiles, .commitChanges, .pushChanges])

/-! ## RepoCloner (`scripts/repo_clone.py`) -/

/-- `repo_url.split('/')[-1]`: the segment after the last `/` (the whole
string when there is no `/`). -/
def lastSegment (s : List Char) : List Char :=
  s.foldl (fun acc c => if c = '/' then [] else acc ++ [c]) []

/-- Python `.replace('.git', '')` with these fixed arguments: scan left to
right and delete every (non-overlapping) occurrence of `".git"`; a window
shorter than four characters can hold no occurrence and is kept unchanged. -/
def removeDotGit : List Char → List Char
  | c1 :: c2 :: c3 :: c4 :: rest =>
    if c1 = '.' ∧ c2 = 'g' ∧ c3 = 'i' ∧ c4 = 't' then removeDotGit rest
    else c1 :: removeDotGit (c2 :: c3 :: c4 :: rest)
  | [c1, c2, c3] => [c1, c2, c3]
  | [c1, c2] => [c1, c2]
  | [c1] => [c1]
  | [] => []

/-- `repo_name = repo_url.split('/')[-1].replace('.git', '')` from
`RepoCloner.clone_repository`. -/
def clone_dir_name (url : List Char) : List Char := removeDotGit (lastSegment url)

/-- Modelled from the spec: the directory name the spec describes — "the
URL's final path segment (with any `.git` suffix stripped)", the rest of the
segment unchanged.  Stated only to be compared with `clone_dir_name`, the
name the code actually computes. -/
def clone_dir_name_speced (url : List Char) : List Char :=
  let seg := lastSegment url
  if ".git".data <:+ seg then seg.take (seg.length - 4) else seg

/-- Outcome of the underlying `Repo.clone_from` call (and of the preceding
filesystem work): success, a `GitCommandError`, or any other exception. -/
inductive CloneOutcome where
  | ok : CloneOutcome
  | gitError : List Char → CloneOutcome
  | otherError : List Char → CloneOutcome

/-- World for `RepoCloner.clone_repository`: whether the destination
directory already exists, and how the clone attempt turns out. -/
structure CloneWorld where
  dest_exists : Bool
  outcome : CloneOutcome

/-- Observable filesystem/network effects of `clone_repository`: the
`shutil.rmtree` of an existing destination, and the `Repo.clone_from` call. -/
inductive CloneEffect where
  | rmtree : List Char → CloneEffect
  | gitClone : List Char → CloneEffect
deriving DecidableEq

/-- A record appended to the in-memory `self.clone_history`: the success
record carries the url and destination, the failure record carries the url
and the error text (`"status": "failed", "error": str(e)`). -/
inductive CloneRecord where
  | success : List Char → List Char → CloneRecord
  | failure : List Char → List Char → CloneRecord
deriving DecidableEq

/-- Result of `clone_repository`: whether it raised to the caller, the
effects in the order performed, and the history records appended. -/
structure CloneOut where
  raised : Bool
  effects : List CloneEffect
  records : List CloneRecord
deriving DecidableEq

/-- `RepoCloner.clone_repository(repo_url, branch, depth)`: compute the
destination name, `shutil.rmtree` it if it already exists, then
`Repo.clone_from`; on success append a success record and return the repo; on
`GitCommandError` append a failure record (url and error text) and re-raise;
on any other exception re-raise with no record. -/
def clone_repository (w : CloneWorld) (url : List Char) : CloneOut :=
  let d := clone_dir_name url
  let pre : List CloneEffect := if w.dest_exists then [.rmtree d] else []
  match w.outcome with
  | .ok => ⟨false, pre ++ [.gitClone d], [.success url d]⟩
  | .gitError e => ⟨true, pre ++ [.gitClone d], [.failure url e]⟩
  | .otherError _ => ⟨true, pre ++ [.gitClone d], []⟩

/-! ## Helper lemmas about normalization -/

/-- The character set the spec ascribes to normalized tokens: uppercase ASCII
letters, ASCII digits, and underscore. -/
def isUpperToken (c : Char) : Bool :=
  (65 ≤ c.toNat && c.toNat ≤ 90) || (48 ≤ c.toNat && c.toNat ≤ 57) || c.toNat == 95

theorem char_eq_of_toNat_eq {c d : Char} (h : c.toNat = d.toNat) : c = d := by
  have h2 := congrArg Char.ofNat h
  rwa [Char.ofNat_toNat, Char.ofNat_toNat] at h2

theorem dropWhile_eq_self_of {p : Char → Bool} {l : List Char}
    (h : ∀ c ∈ l, p c = false) : l.dropWhile p = l := by
  cases l with
  | nil => rfl
  | cons a t => simp [List.dropWhile_cons, h a (List.mem_cons_self a t)]

theorem mem_of_mem_pyStrip {c : Char} {s : List Char} (h : c ∈ pyStrip s) : c ∈ s := by
  simp only [pyStrip, List.mem_reverse] at h
  have h1 := (List.dropWhile_sublist pyIsSpace).subset h
  rw [List.mem_reverse] at h1
  exact (List.dropWhile_sublist pyIsSpace).subset h1

theorem pyToUpperChar_upperToken {c : Char}
    (hk : (pyIsAlnum c || decide (c = '_')) = true) (ha : c.toNat < 128) :
    isUpperToken (pyToUpperChar c) = true := by
  rcases Bool.or_eq_true _ _ |>.mp hk with hal | hu
  · rw [pyIsAlnum, if_pos ha] at hal
    simp only [Bool.or_eq_true, Bool.and_eq_true, decide_eq_true_eq] at hal
    rw [pyToUpperChar]
    rcases hal with (h1 | h2) | h3
    · rw [if_neg (by simp only [Bool.and_eq_true, decide_eq_true_eq]; omega)]
      simp only [isUpperToken, Bool.or_eq_true, Bool.and_eq_true, decide_eq_true_eq,
        beq_iff_eq]
      omega
    · rw [if_pos (by simp only [Bool.and_eq_true, decide_eq_true_eq]; omega)]
      obtain ⟨hl, hr⟩ := h2
      interval_cases h : c.toNat <;> decide
    · rw [if_neg (by simp only [Bool.and_eq_true, decide_eq_true_eq]; omega)]
      simp only [isUpperToken, Bool.or_eq_true, Bool.and_eq_true, decide_eq_true_eq,
        beq_iff_eq]
      omega
  · have : c = '_' := of_decide_eq_true hu
    subst this
    decide

theorem pyUpper_ascii {c : Char} (h : c.toNat < 128) : pyUpper c = [pyToUpperChar c] := by
  rw [pyUpper, if_pos h]

/-- Every character of `normalize_name` output on an ASCII input is an
uppercase ASCII letter, an ASCII digit or an underscore. -/
theorem normalize_name_ascii_mem {s : List Char} (hs : ∀ c ∈ s, c.toNat < 128) :
    ∀ c ∈ normalize_name (some s), isUpperToken c = true := by
  intro c hc
  simp only [normalize_name] at hc
  rw [List.mem_flatten] at hc
  obtain ⟨l, hl, hcl⟩ := hc
  rw [List.mem_map] at hl
  obtain ⟨a, ha, rfl⟩ := hl
  rw [List.mem_filter] at ha
  obtain ⟨ha1, ha2⟩ := ha
  rw [List.mem_map] at ha1
  obtain ⟨b, hb, rfl⟩ := ha1
  have hbA : b.toNat < 128 := hs b (mem_of_mem_pyStrip hb)
  have haA : (if b = ' ' then '_' else b).toNat < 128 := by
    by_cases hsp : b = ' '
    · rw [if_pos hsp]; decide
    · rwa [if_neg hsp]
  rw [pyUpper_ascii haA, List.mem_singleton] at hcl
  subst hcl
  exact pyToUpperChar_upperToken ha2 haA

theorem isUpperToken_props {c : Char} (h : isUpperToken c = true) :
    pyIsSpace c = false ∧ c ≠ ' ' ∧ (pyIsAlnum c || decide (c = '_')) = true ∧
      pyUpper c = [c] := by
  simp only [isUpperToken, Bool.or_eq_true, Bool.and_eq_true, decide_eq_true_eq,
    beq_iff_eq] at h
  have hA : c.toNat < 128 := by omega
  refine ⟨?_, ?_, ?_, ?_⟩
  · simp only [pyIsSpace, Bool.or_eq_true, Bool.and_eq_true, decide_eq_true_eq, beq_iff_eq,
      Bool.or_eq_false_iff, Bool.and_eq_false_iff, decide_eq_false_iff_not, beq_eq_false_iff_ne,
      ne_eq]
    omega
  · intro hsp
    subst hsp
    revert h
    decide
  · rcases h with (h1 | h2) | h3
    · simp only [pyIsAlnum, if_pos hA, Bool.or_eq_true, Bool.and_eq_true, decide_eq_true_eq]
      left
      omega
    · simp only [pyIsAlnum, if_pos hA, Bool.or_eq_true, Bool.and_eq_true, decide_eq_true_eq]
      left
      omega
    · have : c = '_' := char_eq_of_toNat_eq (by rw [h3]; rfl)
      subst this
      decide
  · rw [pyUpper_ascii hA, pyToUpperChar,
      if_neg (by simp only [Bool.and_eq_true, decide_eq_true_eq]; omega)]

theorem flatten_map_singleton (l : List Char) : (l.map (fun a => [a])).flatten = l := by
  induction l with
  | nil => rfl
  | cons a t ih => simp [ih]

/-- `normalize_name` is the identity on strings made only of uppercase ASCII
letters, digits and underscores. -/
theorem normalize_name_fixed {s : List Char} (h : ∀ c ∈ s, isUpperToken c = true) :
    normalize_name (some s) = s := by
  have hstrip : pyStrip s = s := by
    rw [pyStrip, dropWhile_eq_self_of (fun c hc => (isUpperToken_props (h c hc)).1),
      dropWhile_eq_self_of (fun c hc =>
        (isUpperToken_props (h c (List.mem_reverse.mp hc))).1), List.reverse_reverse]
  simp only [normalize_name, hstrip]
  have hmap : s.map (fun c => if c = ' ' then '_' else c) = s := by
    rw [List.map_congr_left (g := id) (fun a ha => by
      rw [if_neg (isUpperToken_props (h a ha)).2.1]; rfl), List.map_id]
  rw [hmap, List.filter_eq_self.mpr (fun a ha => (isUpperToken_props (h a ha)).2.2.1),
    List.map_congr_left (g := fun a => [a]) (fun a ha => (isUpperToken_props (h a ha)).2.2.2),
    flatten_map_singleton]

theorem pyOrStr_none (b : List Char) : pyOrStr none b = b := rfl

theorem pyOrStr_empty (b : List Char) : pyOrStr (some []) b = b := rfl

theorem pyOrStr_some_of_ne {s : List Char} (b : List Char) (h : s ≠ []) :
    pyOrStr (some s) b = s := by
  simp [pyOrStr, h]

/-! ## Claims about normalization and branch names (C4, C5, C6, C10) -/

/-- C4: `generate_branch_name` on team "RIFT ORGANISERS" and leader
"Saiyam Kumar" returns exactly "RIFT_ORGANISERS_SAIYAM_KUMAR_AI_Fix", and on
team "RIFT@2026" and leader "John-Doe" returns exactly
"RIFT2026_JOHNDOE_AI_Fix" (punctuation dropped, not replaced), for any
configured instance state. -/
theorem generate_branch_name_examples (st : BranchManagerState) :
    generate_branch_name st (some "RIFT ORGANISERS".data) (some "Saiyam Kumar".data) =
      "RIFT_ORGANISERS_SAIYAM_KUMAR_AI_Fix".data ∧
    generate_branch_name st (some "RIFT@2026".data) (some "John-Doe".data) =
      "RIFT2026_JOHNDOE_AI_Fix".data := by
  constructor <;>
    · simp only [generate_branch_name]
      rw [pyOrStr_some_of_ne _ (by decide), pyOrStr_some_of_ne _ (by decide)]
      decide

/-- C5 counterexample: the non-ASCII input "é" (U+00E9) is alphanumeric in
Python and uppercases to "É" (U+00C9), so the normalized output contains a
character outside `[A-Z0-9_]`; the claim fails as stated for arbitrary input
strings. -/
theorem normalize_name_charset_cex :
    normalize_name (some [Char.ofNat 0xE9]) = [Char.ofNat 0xC9] ∧
    isUpperToken (Char.ofNat 0xC9) = false := by decide

/-- C5 (amended): for every input string consisting of ASCII characters
(and for the `None` input, which yields the empty token), every character of
the normalized output is an uppercase ASCII letter, an ASCII digit, or an
underscore. -/
theorem normalize_name_ascii_charset (s : List Char) (hs : ∀ c ∈ s, c.toNat < 128) :
    (∀ c ∈ normalize_name (some s), isUpperToken c = true) ∧
      normalize_name none = [] :=
  ⟨normalize_name_ascii_mem hs, rfl⟩

theorem normalize_name_ascii_charset_w :
    (∀ c ∈ normalize_name (some "a b!".data), isUpperToken c = true) ∧
      normalize_name none = [] :=
  normalize_name_ascii_charset "a b!".data (by decide)

/-- C6 counterexample: "ǰ" (U+01F0) is a Unicode letter whose full uppercase
mapping is "J" followed by U+030C COMBINING CARON; the combining mark is not
alphanumeric, so a second normalization drops it — normalization is not
idempotent on arbitrary input strings. -/
theorem normalize_name_idem_cex :
    normalize_name (some (normalize_name (some [Char.ofNat 0x1F0]))) ≠
      normalize_name (some [Char.ofNat 0x1F0]) := by decide

/-- C6 (amended): for every input string consisting of ASCII characters,
normalizing the result of normalizing the string yields the same string as
normalizing it once. -/
theorem normalize_name_ascii_idem (s : List Char) (hs : ∀ c ∈ s, c.toNat < 128) :
    normalize_name (some (normalize_name (some s))) = normalize_name (some s) :=
  normalize_name_fixed (normalize_name_ascii_mem hs)

theorem normalize_name_ascii_idem_w :
    normalize_name (some (normalize_name (some "  Team One! ".data))) =
      normalize_name (some "  Team One! ".data) :=
  normalize_name_ascii_idem "  Team One! ".data (by decide)

/-- C10 counterexample: with a `BranchManager` whose configured team name is
"@!" (a constructor argument, truthy for Python's `or`, that normalizes to
the empty token), calling `generate_branch_name` with an empty-string team
argument falls back to "@!" and produces a branch name whose team token is
empty — the result has the shape `_LEADER_AI_Fix`. -/
theorem generate_branch_name_empty_token_cex :
    generate_branch_name ⟨"@!".data, "DEO_PRAKASH".data⟩ (some []) none =
      "_DEO_PRAKASH_AI_Fix".data ∧
    normalize_name (some (pyOrStr (some []) "@!".data)) = [] := by decide

/-- C10 (amended): an empty-string team/leader argument is treated exactly
like an absent argument (both fall through Python's `or` to the configured
instance names), and — provided the configured team and leader names
themselves normalize to non-empty tokens, as the built-in defaults
RAG_RAIDERS and DEO_PRAKASH do — the resulting branch name has no empty
token. -/
theorem generate_branch_name_empty_args (st : BranchManagerState)
    (ta la : Option (List Char))
    (h1 : normalize_name (some st.team_name) ≠ [])
    (h2 : normalize_name (some st.leader_name) ≠ [])
    (hta : ta = none ∨ ta = some []) (hla : la = none ∨ la = some []) :
    generate_branch_name st ta la = generate_branch_name st none none ∧
    ∃ tt ll, generate_branch_name st ta la =
        tt ++ '_' :: (ll ++ '_' :: BRANCH_SUFFIX) ∧ tt ≠ [] ∧ ll ≠ [] := by
  have hta' : pyOrStr ta st.team_name = st.team_name := by
    rcases hta with rfl | rfl <;> rfl
  have hla' : pyOrStr la st.leader_name = st.leader_name := by
    rcases hla with rfl | rfl <;> rfl
  constructor
  · simp only [generate_branch_name, hta', hla']
    rfl
  · exact ⟨normalize_name (some st.team_name), normalize_name (some st.leader_name),
      by simp only [generate_branch_name, hta', hla'], h1, h2⟩

theorem generate_branch_name_empty_args_w :
    generate_branch_name ⟨"RAG_RAIDERS".data, "DEO_PRAKASH".data⟩ (some []) none =
      generate_branch_name ⟨"RAG_RAIDERS".data, "DEO_PRAKASH".data⟩ none none ∧
    ∃ tt ll, generate_branch_name ⟨"RAG_RAIDERS".data, "DEO_PRAKASH".data⟩ (some []) none =
        tt ++ '_' :: (ll ++ '_' :: BRANCH_SUFFIX) ∧ tt ≠ [] ∧ ll ≠ [] :=
  generate_branch_name_empty_args ⟨"RAG_RAIDERS".data, "DEO_PRAKASH".data⟩ (some []) none
    (by decide) (by decide) (Or.inr rfl) (Or.inl rfl)

/-! ## Claims about the history file (C3) -/

theorem save_operations_jsonArray {α : Type} (es : List α) : ∀ l : List α,
    save_operations (HistFile.jsonArray l) es = HistFile.jsonArray (l ++ es) := by
  induction es with
  | nil => intro l; simp [save_operations]
  | cons e t ih =>
    intro l
    have h : save_operations (HistFile.jsonArray l) (e :: t) =
        save_operations (HistFile.jsonArray (l ++ [e])) t := rfl
    rw [h, ih]
    simp

/-- C3 counterexample: an append against a file holding malformed JSON does
not raise (the routine catches the parse error), but the new entry does not
become the sole element — nothing is written and the file stays malformed. -/
theorem history_append_malformed_cex :
    save_operation (HistFile.malformed : HistFile Nat) 7 ≠ HistFile.jsonArray [7] ∧
    save_operation (HistFile.malformed : HistFile Nat) 7 = HistFile.malformed := by
  decide

/-- C3 (amended): appending entries sequentially to a fresh (`[]`-initialized)
or missing history file yields a JSON array of exactly those entries in
insertion order; a blank existing file is treated as zero prior entries (the
new entry becomes the sole element); a malformed existing file does not make
the append raise, but the append is skipped and the file is left unchanged
rather than being treated as empty. -/
theorem history_append_behavior {α : Type} (es : List α) (e e2 : α) (l : List α) :
    save_operations (HistFile.jsonArray l) es = HistFile.jsonArray (l ++ es) ∧
    save_operations HistFile.absent (e :: es) = HistFile.jsonArray (e :: es) ∧
    save_operation HistFile.blank e2 = HistFile.jsonArray [e2] ∧
    save_operation (HistFile.malformed : HistFile α) e2 = HistFile.malformed := by
  refine ⟨save_operations_jsonArray es l, ?_, rfl, rfl⟩
  have h : save_operations (HistFile.absent : HistFile α) (e :: es) =
      save_operations (HistFile.jsonArray [e]) es := rfl
  rw [h, save_operations_jsonArray]
  rfl

/-! ## Claims about push, commit, and history recording (C1, C2, C7) -/

/-- C1: for every call to `push`, if the target branch (explicit or resolved
to the current branch) is "main" or "master", the call returns `False`
without any remote/network interaction, regardless of `force` (the function
is total, so it never raises); for any other branch name, when the remote
push succeeds the call returns `True`. -/
theorem push_protected_guard (w : PushWorld) (branch : Option (List Char)) (force : Bool) :
    ((branch.getD w.active_branch = "main".data ∨
        branch.getD w.active_branch = "master".data) →
      (push w branch force).1 = false ∧
        PushEffect.netPush ∉ (push w branch force).2) ∧
    (¬(branch.getD w.active_branch = "main".data ∨
        branch.getD w.active_branch = "master".data) →
      w.remote_push_ok = true → (push w branch force).1 = true) := by
  constructor
  · intro h
    refine ⟨?_, ?_⟩ <;> simp [push, h]
  · intro h hok
    simp [push, h, hok]

theorem push_protected_guard_w :
    ((push ⟨"dev".data, true⟩ (some "main".data) true).1 = false ∧
      PushEffect.netPush ∉ (push ⟨"dev".data, true⟩ (some "main".data) true).2) ∧
    (push ⟨"feature1".data, true⟩ none false).1 = true :=
  ⟨(push_protected_guard ⟨"dev".data, true⟩ (some "main".data) true).1 (Or.inl rfl),
   (push_protected_guard ⟨"feature1".data, true⟩ none false).2 (by decide) rfl⟩

/-- C2 counterexample: a push whose explicit target is the protected branch
"main" fails (returns `False`) and appends zero history records, not the
exactly-one failure record the claim requires. -/
theorem history_per_operation_cex :
    (push ⟨"dev".data, true⟩ (some "main".data) false).1 = false ∧
    (push ⟨"dev".data, true⟩ (some "main".data) false).2.count PushEffect.histAppend = 0 := by
  decide

/-- C2 (amended): `push` and `commit` append exactly one history record on
success and none on failure (including the protected-branch refusal and the
nothing-to-commit case); `create_branch` never writes the history file and
appends one in-memory record on success only; `clone_repository` appends one
success record on success and one failure record carrying the error text on
a git-command error, and none on any other error. -/
theorem history_append_per_operation (wp : PushWorld) (b : Option (List Char)) (f : Bool)
    (wc : CommitWorld) (m : List Char) (wb : CreateBranchWorld) (bn bb : List Char)
    (ck : Bool) (wk : CloneWorld) (url : List Char) :
    ((push wp b f).2.count PushEffect.histAppend = if (push wp b f).1 then 1 else 0) ∧
    ((commit wc m).appends = if (commit wc m).ret.isSome then 1 else 0) ∧
    (create_branch wb bn bb ck).fileAppends = 0 ∧
    ((create_branch wb bn bb ck).memAppends =
      if (create_branch wb bn bb ck).ok then 1 else 0) ∧
    ((clone_repository wk url).records =
      match wk.outcome with
      | .ok => [CloneRecord.success url (clone_dir_name url)]
      | .gitError e => [CloneRecord.failure url e]
      | .otherError _ => []) := by
  refine ⟨?_, ?_, ?_, ?_, ?_⟩
  · by_cases h : (b.getD wp.active_branch = "main".data ∨
        b.getD wp.active_branch = "master".data)
    · simp [push, h]
    · by_cases hok : wp.remote_push_ok <;> simp [push, h, hok]
  · by_cases hd : wc.is_dirty <;> by_cases hok : wc.git_commit_ok <;>
      simp [commit, hd, hok]
  · by_cases hr : wb.repo_initialized <;> by_cases hg : wb.git_ops_ok <;>
      simp [create_branch, hr, hg]
  · by_cases hr : wb.repo_initialized <;> by_cases hg : wb.git_ops_ok <;>
      simp [create_branch, hr, hg]
  · obtain ⟨de, oc⟩ := wk
    cases oc <;> simp [clone_repository]

/-- C7 counterexample: with changes present, a caller message that starts
with the bare marker "[AI-AGENT]" but not with "[AI-AGENT] " (no space after
the bracket) is committed unchanged, so the committed message is not
prefixed with "[AI-AGENT] " even once — the claim's "prefixed with
`[AI-AGENT] ` exactly once" fails for this input. -/
theorem commit_prefix_cex :
    (commit ⟨true, true, "0123456789abcdef0123456789abcdef01234567".data⟩
        "[AI-AGENT]x".data).committed = some "[AI-AGENT]x".data ∧
    AI_TAG_SP.isPrefixOf "[AI-AGENT]x".data = false := by decide

theorem isPrefixOf_append_self (l t : List Char) : l.isPrefixOf (l ++ t) = true := by
  induction l with
  | nil => simp [List.isPrefixOf]
  | cons a l ih => simp [List.isPrefixOf, ih]

/-- C7 (amended): with no staged/modified changes, `commit` returns `None`
and creates no commit; with changes and a successful underlying commit it
returns the (non-empty, for a non-empty commit hash) 7-character short hash,
and the committed message always starts with the marker "[AI-AGENT]": the
prefix "[AI-AGENT] " is prepended exactly when the caller's message does not
already start with "[AI-AGENT]", and a message that already starts with the
marker (with or without the following space) is committed unchanged, so a
second prefix is never added. -/
theorem commit_behavior (w : CommitWorld) (m : List Char) :
    (w.is_dirty = false → commit w m = ⟨none, none, 0⟩) ∧
    (w.is_dirty = true → w.git_commit_ok = true →
      (commit w m).ret = some (w.commit_hexsha.take 7) ∧
      (w.commit_hexsha ≠ [] → w.commit_hexsha.take 7 ≠ []) ∧
      (∀ cm ∈ (commit w m).committed,
        AI_TAG.isPrefixOf cm = true ∧
        (AI_TAG.isPrefixOf m = true → cm = m) ∧
        (AI_TAG.isPrefixOf m = false → cm = AI_TAG_SP ++ m))) := by
  constructor
  · intro h
    simp [commit, h]
  · intro hd hok
    refine ⟨by simp [commit, hd, hok], ?_, ?_⟩
    · intro hne
      rw [Ne, List.take_eq_nil_iff]
      push_neg
      exact ⟨by omega, hne⟩
    · intro cm hcm
      simp only [commit, hd, hok, Bool.not_true, if_pos, if_neg, Bool.false_eq_true,
        if_false, if_true] at hcm
      by_cases hp : AI_TAG.isPrefixOf m
      · rw [if_pos hp] at hcm
        simp only [Option.mem_def, Option.some_inj] at hcm
        subst hcm
        exact ⟨hp, fun _ => rfl, fun hc => by rw [hp] at hc; cases hc⟩
      · rw [if_neg hp] at hcm
        simp only [Option.mem_def, Option.some_inj] at hcm
        subst hcm
        refine ⟨?_, fun hc => absurd hc hp, fun _ => rfl⟩
        have h2 : AI_TAG_SP ++ m = AI_TAG ++ (' ' :: m) := rfl
        rw [h2]
        exact isPrefixOf_append_self AI_TAG (' ' :: m)

theorem commit_behavior_w :
    (commit ⟨true, true, "0123456789abcdef0123456789abcdef01234567".data⟩
        "fix parser bug".data).ret =
      some ("0123456789abcdef0123456789abcdef01234567".data.take 7) ∧
    ("0123456789abcdef0123456789abcdef01234567".data ≠ [] →
      "0123456789abcdef0123456789abcdef01234567".data.take 7 ≠ []) ∧
    (∀ cm ∈ (commit ⟨true, true, "0123456789abcdef0123456789abcdef01234567".data⟩
        "fix parser bug".data).committed,
      AI_TAG.isPrefixOf cm = true ∧
      (AI_TAG.isPrefixOf "fix parser bug".data = true → cm = "fix parser bug".data) ∧
      (AI_TAG.isPrefixOf "fix parser bug".data = false →
        cm = AI_TAG_SP ++ "fix parser bug".data)) :=
  (commit_behavior ⟨true, true, "0123456789abcdef0123456789abcdef01234567".data⟩
    "fix parser bug".data).2 rfl rfl

/-! ## Claims about the composite workflow (C8) -/

/-- C8 counterexample: a run in which the ensure-branch step fails and a run
in which it succeeds but the staging step fails return the same `results`
value — the returned result does not record whether the first of the four
steps (ensuring the canonical feature branch) completed, even though the two
runs executed different steps. -/
theorem automated_commit_push_records_cex :
    (automated_commit_push ⟨false, true, some "abc1234".data, true⟩).1 =
      (automated_commit_push ⟨true, false, some "abc1234".data, true⟩).1 ∧
    (automated_commit_push ⟨false, true, some "abc1234".data, true⟩).2 ≠
      (automated_commit_push ⟨true, false, some "abc1234".data, true⟩).2 := by
  decide

/-- C8 (amended): the workflow executes its four steps strictly in the order
ensure-branch, stage, commit, push (the executed steps always form a
non-empty prefix of that sequence); each step runs exactly when every
earlier step succeeded, so the workflow stops at the first failing step
without executing any later step; and the returned result records completion
of the stage, commit and push steps (steps never reached remain at their
not-done defaults) — the ensure-branch step's completion has no field of its
own. -/
theorem automated_commit_push_order (w : FlowWorld) :
    (automated_commit_push w).2 <+:
      [FlowStep.ensureBranch, FlowStep.addFiles, FlowStep.commitChanges,
        FlowStep.pushChanges] ∧
    FlowStep.ensureBranch ∈ (automated_commit_push w).2 ∧
    (FlowStep.addFiles ∈ (automated_commit_push w).2 ↔ w.ensure_ok = true) ∧
    (FlowStep.commitChanges ∈ (automated_commit_push w).2 ↔
      w.ensure_ok = true ∧ w.add_ok = true) ∧
    (FlowStep.pushChanges ∈ (automated_commit_push w).2 ↔
      w.ensure_ok = true ∧ w.add_ok = true ∧ w.commit_ret.isSome = true) ∧
    (automated_commit_push w).1.add = (w.ensure_ok && w.add_ok) ∧
    (automated_commit_push w).1.commit =
      (if w.ensure_ok && w.add_ok then w.commit_ret else none) ∧
    (automated_commit_push w).1.push =
      (w.ensure_ok && w.add_ok && w.commit_ret.isSome && w.push_ok) := by
  obtain ⟨e, a, c, p⟩ := w
  cases e <;> cases a <;> cases p <;> cases c <;>
    simp [automated_commit_push, List.cons_prefix_cons]

/-! ## Claims about cloning (C9) -/

/-- If `".git"` does not occur in `s`, the scan keeps `s` unchanged. -/
theorem removeDotGit_of_not_infix :
    ∀ {s : List Char}, ¬ ".git".data <:+: s → removeDotGit s = s := by
  intro s
  induction s with
  | nil => intro _; rfl
  | cons c s' ih =>
    intro h
    have hs' : ¬ ".git".data <:+: s' := fun hi =>
      h (hi.trans (List.infix_cons List.infix_rfl))
    match s' with
    | [] => rfl
    | [c2] => rfl
    | [c2, c3] => rfl
    | c2 :: c3 :: c4 :: rest =>
      rw [removeDotGit]
      rw [if_neg ?_, ih hs']
      intro hg
      obtain ⟨h1, h2, h3, h4⟩ := hg
      subst h1; subst h2; subst h3; subst h4
      exact h (List.IsPrefix.isInfix ⟨rest, rfl⟩)

/-- If `".git"` does not occur in `t`, removing occurrences from
`t ++ ".git"` strips exactly that final occurrence, leaving `t`. -/
theorem removeDotGit_append_suffix :
    ∀ {t : List Char}, ¬ ".git".data <:+: t →
      removeDotGit (t ++ ".git".data) = t := by
  intro t
  induction t with
  | nil => intro _; rfl
  | cons c t' ih =>
    intro h
    have ht' : ¬ ".git".data <:+: t' := fun hi =>
      h (hi.trans (List.infix_cons List.infix_rfl))
    match t' with
    | [] => simp [removeDotGit]
    | [a] => simp [removeDotGit]
    | [a, b] => simp [removeDotGit]
    | a :: b :: d :: t'' =>
      have hshape : (c :: (a :: b :: d :: t'')) ++ ".git".data =
          c :: a :: b :: d :: (t'' ++ ".git".data) := by simp
      rw [hshape, removeDotGit]
      rw [if_neg ?_]
      · have : removeDotGit (a :: b :: d :: (t'' ++ ".git".data)) = a :: b :: d :: t'' := by
          have h2 : a :: b :: d :: (t'' ++ ".git".data) =
              (a :: b :: d :: t'') ++ ".git".data := by simp
          rw [h2]
          exact ih ht'
        rw [this]
      · intro hg
        obtain ⟨h1, h2, h3, h4⟩ := hg
        subst h1; subst h2; subst h3; subst h4
        exact h (List.IsPrefix.isInfix ⟨t'', rfl⟩)

/-- C9 counterexample: for the URL "https://example.com/my.gitrepo", the
final path segment "my.gitrepo" carries no ".git" suffix, yet the code's
`.replace('.git', '')` removes the interior occurrence and clones into
"myrepo" — not into the segment with only a ".git" suffix stripped and the
rest unchanged, which would be "my.gitrepo". -/
theorem clone_dir_name_cex :
    clone_dir_name "https://example.com/my.gitrepo".data = "myrepo".data ∧
    clone_dir_name_speced "https://example.com/my.gitrepo".data = "my.gitrepo".data ∧
    clone_dir_name "https://example.com/my.gitrepo".data ≠
      clone_dir_name_speced "https://example.com/my.gitrepo".data := by
  decide

/-- C9 (amended): the clone destination is the URL's final path segment with
every occurrence of the substring ".git" removed — when the segment ends in
".git" and contains no other occurrence this is exactly the suffix-stripped
segment, and a segment without any occurrence is used unchanged; if the
destination directory already exists, it is removed (rmtree) strictly before
the fresh clone is performed, and no removal happens otherwise. -/
theorem clone_repository_overwrite (w : CloneWorld) (url t : List Char) :
    (w.dest_exists = true →
      (clone_repository w url).effects =
        [CloneEffect.rmtree (clone_dir_name url),
          CloneEffect.gitClone (clone_dir_name url)]) ∧
    (w.dest_exists = false →
      (clone_repository w url).effects =
        [CloneEffect.gitClone (clone_dir_name url)]) ∧
    (lastSegment url = t ++ ".git".data → ¬ ".git".data <:+: t →
      clone_dir_name url = t) ∧
    (¬ ".git".data <:+: lastSegment url →
      clone_dir_name url = lastSegment url) := by
  refine ⟨?_, ?_, ?_, ?_⟩
  · intro hd
    obtain ⟨de, oc⟩ := w
    cases oc <;> simp_all [clone_repository]
  · intro hd
    obtain ⟨de, oc⟩ := w
    cases oc <;> simp_all [clone_repository]
  · intro hseg hno
    rw [clone_dir_name, hseg]
    exact removeDotGit_append_suffix hno
  · intro hno
    exact removeDotGit_of_not_infix hno

theorem clone_repository_overwrite_w :
    ((true : Bool) = true →
      (clone_repository ⟨true, CloneOutcome.ok⟩ "https://h/proj.git".data).effects =
        [CloneEffect.rmtree (clone_dir_name "https://h/proj.git".data),
          CloneEffect.gitClone (clone_dir_name "https://h/proj.git".data)]) ∧
    clone_dir_name "https://h/proj.git".data = "proj".data :=
  ⟨fun _ => (clone_repository_overwrite ⟨true, CloneOutcome.ok⟩ "https://h/proj.git".data
      "proj".data).1 rfl,
   (clone_repository_overwrite ⟨true, CloneOutcome.ok⟩ "https://h/proj.git".data
      "proj".data).2.2.1 (by decide) (by decide)⟩
